import Mathlib

/-!
Verification of the obspy core utility module (`obspy/core/util.py`).

The module has three components:

* `DateTime` — a subclass of Python's `datetime.datetime` whose constructor
  also accepts a UTC epoch timestamp or an existing `datetime`, and whose
  `timestamp()` method converts back to epoch seconds via `calendar.timegm`.
* `Stats` — a `dict` subclass whose `__dict__` is the dict itself, so that
  attribute access and keyed access share one underlying store; its
  constructor fills documented default values.
* `getFormatsAndMethods` — the format registry: it attempts to import the
  three candidate backends (MSEED, GSE2, WAV) in a fixed order, collecting
  a descriptor for each success and a formatted traceback string for each
  failure.

Times are modelled at microsecond granularity: a float epoch timestamp with a
microsecond-aligned fractional part is represented exactly by its total count
of microseconds as an `Int`.  The calendar arithmetic performed by the Python
standard library (`datetime.utcfromtimestamp`, `date.toordinal`,
`calendar.timegm`) is embedded below following CPython's proleptic-Gregorian
algorithms (`datetime._ord2ymd`, `datetime._ymd2ord`).
-/

/-! ### Proleptic Gregorian calendar (CPython `datetime` module semantics) -/

/-- Gregorian leap-year test (CPython `datetime._is_leap`). -/
def isLeap (y : Nat) : Bool :=
  (y % 4 == 0 && y % 100 != 0) || y % 400 == 0

/-- Days in month `m` of a year with leap flag `leap`
(CPython `_DAYS_IN_MONTH` plus the February leap correction). -/
def daysInMonthTbl (leap : Bool) (m : Nat) : Nat :=
  match m with
  | 1 => 31 | 2 => if leap then 29 else 28 | 3 => 31 | 4 => 30 | 5 => 31 | 6 => 30
  | 7 => 31 | 8 => 31 | 9 => 30 | 10 => 31 | 11 => 30 | 12 => 31 | _ => 0

/-- Days before month `m` in a non-leap year (CPython `_DAYS_BEFORE_MONTH`). -/
def daysBeforeMonthTbl (m : Nat) : Nat :=
  match m with
  | 1 => 0 | 2 => 31 | 3 => 59 | 4 => 90 | 5 => 120 | 6 => 151 | 7 => 181
  | 8 => 212 | 9 => 243 | 10 => 273 | 11 => 304 | 12 => 334 | _ => 365

/-- Days before month `m` of a year with leap flag `leap`
(CPython `_days_before_month`). -/
def daysBeforeMonth (leap : Bool) (m : Nat) : Nat :=
  daysBeforeMonthTbl m + (if 2 < m && leap then 1 else 0)

/-- Number of days before January 1 of year `y` (CPython `_days_before_year`). -/
def daysBeforeYear (y : Nat) : Nat :=
  365 * (y - 1) + (y - 1) / 4 - (y - 1) / 100 + (y - 1) / 400

/-- Proleptic Gregorian ordinal of the date `(y, m, d)`, with day 1 being
January 1 of year 1 (CPython `_ymd2ord`). -/
def ymd2ord (y m d : Nat) : Nat :=
  daysBeforeYear y + daysBeforeMonth (isLeap y) m + d

/-- Month-finding step of CPython `_ord2ymd`: from the 0-based day of year `n`,
guess the month as `(n + 50) >> 5` and apply the single correction step. -/
def findMonth (leap : Bool) (n : Nat) : Nat × Nat :=
  let month := (n + 50) / 32
  let preceding := daysBeforeMonthTbl month + (if 2 < month && leap then 1 else 0)
  if n < preceding then
    let month := month - 1
    let preceding := preceding -
      (daysInMonthTbl false month + (if month == 2 && leap then 1 else 0))
    (month, n - preceding + 1)
  else
    (month, n - preceding + 1)

/-- Convert a proleptic Gregorian ordinal to `(year, month, day)`
(CPython `_ord2ymd`): peel off 400-year, 100-year, 4-year and 1-year cycles,
special-casing the last day of a leap year, then locate the month. -/
def ord2ymd (N : Nat) : Nat × Nat × Nat :=
  let n0 := N - 1
  let n400 := n0 / 146097
  let r1 := n0 % 146097
  let n100 := r1 / 36524
  let r2 := r1 % 36524
  let n4 := r2 / 1461
  let r3 := r2 % 1461
  let n1 := r3 / 365
  let r4 := r3 % 365
  if n1 == 4 || n100 == 4 then
    (n400 * 400 + n100 * 100 + n4 * 4 + n1, 12, 31)
  else
    let leap := n1 == 3 && (n4 != 24 || n100 == 3)
    let md := findMonth leap r4
    (n400 * 400 + n100 * 100 + n4 * 4 + n1 + 1, md.1, md.2)

/-! ### Calendar round-trip lemmas -/

set_option maxRecDepth 100000 in
/-- Every valid day of year is mapped by `findMonth` to an in-range month/day
pair that is consistent with `daysBeforeMonth`. -/
theorem findMonth_correct : ∀ (leap : Bool), ∀ n < 366,
    (n < (if leap then 366 else 365)) →
    let p := findMonth leap n
    1 ≤ p.1 ∧ p.1 ≤ 12 ∧ 1 ≤ p.2 ∧ p.2 ≤ daysInMonthTbl leap p.1 ∧
    daysBeforeMonth leap p.1 + p.2 - 1 = n := by
  decide

set_option maxRecDepth 100000 in
/-- Every valid month/day pair is recovered by `findMonth` from its 0-based
day of year. -/
theorem findMonth_inv : ∀ (leap : Bool), ∀ m < 13, ∀ d < 32,
    (1 ≤ m ∧ 1 ≤ d ∧ d ≤ daysInMonthTbl leap m) →
    daysBeforeMonth leap m + d - 1 < (if leap then 366 else 365) ∧
    findMonth leap (daysBeforeMonth leap m + d - 1) = (m, d) := by
  decide

set_option maxRecDepth 100000 in
/-- The month table is bounded by 31 for the months that exist. -/
theorem daysInMonthTbl_le : ∀ (leap : Bool), ∀ m < 13, daysInMonthTbl leap m ≤ 31 := by
  decide

set_option maxRecDepth 100000 in
/-- In a leap year, day-of-year offset 365 is December 31. -/
theorem dayOfYear365 : ∀ m < 13, ∀ d < 32,
    (1 ≤ m ∧ 1 ≤ d ∧ d ≤ daysInMonthTbl true m) →
    daysBeforeMonth true m + d - 1 = 365 → m = 12 ∧ d = 31 := by
  decide

/-- Mixed-radix digit decomposition of `y - 1` in the 400/100/4/1 year cycle,
together with the closed form of `daysBeforeYear` in terms of the digits. -/
theorem year_digits (y : Nat) (_hy : 1 ≤ y) :
    ∃ a b c e, y - 1 = 400*a + 100*b + 4*c + e ∧ b ≤ 3 ∧ c ≤ 24 ∧ e ≤ 3 ∧
      daysBeforeYear y = 146097*a + 36524*b + 1461*c + 365*e := by
  refine ⟨(y-1)/400, (y-1)%400/100, (y-1)%100/4, (y-1)%4, by omega, by omega,
    by omega, by omega, ?_⟩
  have h4 : (y-1)/4 = 100*((y-1)/400) + 25*((y-1)%400/100) + ((y-1)%100/4) := by omega
  have h100 : (y-1)/100 = 4*((y-1)/400) + ((y-1)%400/100) := by omega
  simp only [daysBeforeYear]
  omega

/-- The leap flag computed by `ord2ymd` from the cycle digits agrees with
`isLeap` on the corresponding year. -/
theorem isLeap_iff_digits (y a b c e : Nat) (hy : 1 ≤ y)
    (hsum : y - 1 = 400*a + 100*b + 4*c + e) (hb : b ≤ 3) (hc : c ≤ 24) (he : e ≤ 3) :
    ((e == 3 && (c != 24 || b == 3)) = true ↔ isLeap y = true) := by
  simp only [isLeap, Bool.and_eq_true, Bool.or_eq_true, beq_iff_eq, bne_iff_ne, ne_eq]
  omega

/-- Bool-level version of `isLeap_iff_digits`. -/
theorem isLeap_digits (y a b c e : Nat) (hy : 1 ≤ y)
    (hsum : y - 1 = 400*a + 100*b + 4*c + e) (hb : b ≤ 3) (hc : c ≤ 24) (he : e ≤ 3) :
    (e == 3 && (c != 24 || b == 3)) = isLeap y := by
  have h := isLeap_iff_digits y a b c e hy hsum hb hc he
  cases hb1 : (e == 3 && (c != 24 || b == 3)) <;> cases hb2 : isLeap y <;>
    simp only [hb1, hb2] at h <;> simp_all

/-- Round trip: converting a valid calendar date to its proleptic Gregorian
ordinal and back recovers the date. -/
theorem ord2ymd_ymd2ord (y m d : Nat) (hy : 1 ≤ y) (hm : 1 ≤ m) (hm2 : m ≤ 12)
    (hd : 1 ≤ d) (hd2 : d ≤ daysInMonthTbl (isLeap y) m) :
    ord2ymd (ymd2ord y m d) = (y, m, d) := by
  obtain ⟨a, b, c, e, hsum, hb, hc, he, hdby⟩ := year_digits y hy
  have hinv := findMonth_inv (isLeap y) m (by omega) d (by
    have := daysInMonthTbl_le (isLeap y) m (by omega)
    omega) ⟨hm, hd, hd2⟩
  have hn0 : ymd2ord y m d - 1 =
      146097*a + 36524*b + 1461*c + 365*e + (daysBeforeMonth (isLeap y) m + d - 1) := by
    simp only [ymd2ord, hdby]
    omega
  have hk365 : daysBeforeMonth (isLeap y) m + d - 1 ≤ 365 ∧
      (daysBeforeMonth (isLeap y) m + d - 1 = 365 → isLeap y = true) := by
    rcases hinv with ⟨hlt, _⟩
    by_cases hl : isLeap y = true
    · rw [if_pos hl] at hlt
      exact ⟨by omega, fun _ => hl⟩
    · rw [if_neg hl] at hlt
      exact ⟨by omega, by omega⟩
  by_cases hsp : daysBeforeMonth (isLeap y) m + d - 1 = 365
  · -- last day of a leap year: the special branch of ord2ymd fires
    have hleap : isLeap y = true := hk365.2 hsp
    have hmd : m = 12 ∧ d = 31 := by
      refine dayOfYear365 m (by omega) d (by
        have := daysInMonthTbl_le (isLeap y) m (by omega)
        omega) ⟨hm, hd, by rw [hleap] at hd2; exact hd2⟩ (by rw [← hleap]; exact hsp)
    have hdig : e = 3 ∧ (¬ c = 24 ∨ b = 3) := by
      have h := (isLeap_iff_digits y a b c e hy hsum hb hc he).mpr hleap
      simpa using h
    rw [hsp] at hn0
    by_cases hc24 : c = 24
    · -- era-final day: b = 3 as well
      have hb3 : b = 3 := by rcases hdig.2 with h | h <;> omega
      have he3 : e = 3 := hdig.1
      have hX : ymd2ord y m d - 1 = 146097*a + 146096 := by omega
      have h1 : (ymd2ord y m d - 1) / 146097 = a := by omega
      have h2 : (ymd2ord y m d - 1) % 146097 = 146096 := by omega
      have h3 : (ymd2ord y m d - 1) % 146097 / 36524 = 4 := by omega
      have h5 : (ymd2ord y m d - 1) % 146097 % 36524 / 1461 = 0 := by omega
      have h7 : (ymd2ord y m d - 1) % 146097 % 36524 % 1461 / 365 = 0 := by omega
      simp only [ord2ymd, h1, h3, h5, h7]
      norm_num
      constructor
      · omega
      · exact ⟨hmd.1.symm, hmd.2.symm⟩
    · -- last day of an ordinary leap year inside a century
      have he3 : e = 3 := hdig.1
      have hX : ymd2ord y m d - 1 = 146097*a + 36524*b + 1461*c + 1460 := by omega
      have hcc : c ≤ 23 := by omega
      have h1 : (ymd2ord y m d - 1) / 146097 = a := by omega
      have h2 : (ymd2ord y m d - 1) % 146097 = 36524*b + 1461*c + 1460 := by omega
      have h3 : (ymd2ord y m d - 1) % 146097 / 36524 = b := by omega
      have h4 : (ymd2ord y m d - 1) % 146097 % 36524 = 1461*c + 1460 := by omega
      have h5 : (ymd2ord y m d - 1) % 146097 % 36524 / 1461 = c := by omega
      have h7 : (ymd2ord y m d - 1) % 146097 % 36524 % 1461 / 365 = 4 := by omega
      simp only [ord2ymd, h1, h3, h5, h7]
      norm_num
      exact ⟨by omega, hmd.1.symm, hmd.2.symm⟩
  · -- ordinary day: all four quotients are the digits
    have hklt : daysBeforeMonth (isLeap y) m + d - 1 ≤ 364 := by omega
    have h1 : (ymd2ord y m d - 1) / 146097 = a := by omega
    have h2 : (ymd2ord y m d - 1) % 146097 =
        36524*b + 1461*c + 365*e + (daysBeforeMonth (isLeap y) m + d - 1) := by omega
    have h3 : (ymd2ord y m d - 1) % 146097 / 36524 = b := by omega
    have h4 : (ymd2ord y m d - 1) % 146097 % 36524 =
        1461*c + 365*e + (daysBeforeMonth (isLeap y) m + d - 1) := by omega
    have h5 : (ymd2ord y m d - 1) % 146097 % 36524 / 1461 = c := by omega
    have h6 : (ymd2ord y m d - 1) % 146097 % 36524 % 1461 =
        365*e + (daysBeforeMonth (isLeap y) m + d - 1) := by omega
    have h7 : (ymd2ord y m d - 1) % 146097 % 36524 % 1461 / 365 = e := by omega
    have h8 : (ymd2ord y m d - 1) % 146097 % 36524 % 1461 % 365 =
        daysBeforeMonth (isLeap y) m + d - 1 := by omega
    have hnotsp : ¬ ((e == 4 || b == 4) = true) := by
      simp only [Bool.or_eq_true, beq_iff_eq]
      omega
    simp only [ord2ymd, h1, h3, h5, h7, h8]
    rw [if_neg hnotsp, isLeap_digits y a b c e hy hsum hb hc he, hinv.2]
    have : a * 400 + b * 100 + c * 4 + e + 1 = y := by omega
    rw [this]

/-- Closed form of `daysBeforeYear` for a year given by its 400/100/4/1 cycle
digits. -/
theorem daysBeforeYear_of_digits (y a b c e : Nat) (hsum : y - 1 = 400*a + 100*b + 4*c + e)
    (_h1 : 1 ≤ y) (hb : b ≤ 3) (hc : c ≤ 24) (he : e ≤ 3) :
    daysBeforeYear y = 146097*a + 36524*b + 1461*c + 365*e := by
  have h4 : (y-1)/4 = 100*a + 25*b + c := by omega
  have h100 : (y-1)/100 = 4*a + b := by omega
  have h400 : (y-1)/400 = a := by omega
  simp only [daysBeforeYear]
  omega

/-- Round trip: converting a proleptic Gregorian ordinal to a calendar date
and back recovers the ordinal. -/
theorem ymd2ord_ord2ymd (N : Nat) (hN : 1 ≤ N) :
    ymd2ord (ord2ymd N).1 (ord2ymd N).2.1 (ord2ymd N).2.2 = N := by
  obtain ⟨q400, r1, hd1, hb1⟩ : ∃ q r, N - 1 = 146097*q + r ∧ r < 146097 :=
    ⟨(N-1)/146097, (N-1)%146097, by omega, by omega⟩
  obtain ⟨q100, r2, hd2, hb2⟩ : ∃ q r, r1 = 36524*q + r ∧ r < 36524 :=
    ⟨r1/36524, r1%36524, by omega, by omega⟩
  obtain ⟨q4, r3, hd3, hb3⟩ : ∃ q r, r2 = 1461*q + r ∧ r < 1461 :=
    ⟨r2/1461, r2%1461, by omega, by omega⟩
  obtain ⟨q1, r4, hd4, hb4⟩ : ∃ q r, r3 = 365*q + r ∧ r < 365 :=
    ⟨r3/365, r3%365, by omega, by omega⟩
  have e1 : (N-1)/146097 = q400 := by omega
  have e2 : (N-1)%146097/36524 = q100 := by omega
  have e3 : (N-1)%146097%36524/1461 = q4 := by omega
  have e4 : (N-1)%146097%36524%1461/365 = q1 := by omega
  have e5 : (N-1)%146097%36524%1461%365 = r4 := by omega
  have hq100 : q100 ≤ 4 := by omega
  have hq4 : q4 ≤ 24 := by omega
  have hq1 : q1 ≤ 4 := by omega
  by_cases hspec : q1 = 4 ∨ q100 = 4
  · have hcond : (q1 == 4 || q100 == 4) = true := by
      simp only [Bool.or_eq_true, beq_iff_eq]
      exact hspec
    simp only [ord2ymd, e1, e2, e3, e4, e5, hcond, if_true]
    rcases Nat.eq_or_lt_of_le hq100 with h100eq | h100lt
    · -- q100 = 4: the very last day of a 400-year era
      have hr1 : r1 = 146096 := by omega
      have hz : r2 = 0 ∧ q4 = 0 ∧ r3 = 0 ∧ q1 = 0 := by omega
      obtain ⟨hz2, hz4, hz3, hz1⟩ := hz
      have hy400 : q400 * 400 + q100 * 100 + q4 * 4 + q1 = 400*q400 + 400 := by omega
      rw [hy400]
      have hleapy : isLeap (400*q400 + 400) = true := by
        simp only [isLeap, Bool.or_eq_true, Bool.and_eq_true, beq_iff_eq, bne_iff_ne, ne_eq]
        omega
      have hdby := daysBeforeYear_of_digits (400*q400 + 400) q400 3 24 3
        (by omega) (by omega) (by omega) (by omega) (by omega)
      have hdbm : daysBeforeMonth true 12 = 335 := rfl
      simp only [ymd2ord, hleapy, hdbm]
      omega
    · -- q1 = 4 and q100 ≤ 3: last day of an ordinary leap year
      have h1eq : q1 = 4 := by omega
      have hr3 : r3 = 1460 := by omega
      have hq4le : q4 ≤ 23 := by omega
      have hy : q400 * 400 + q100 * 100 + q4 * 4 + q1 =
          400*q400 + 100*q100 + 4*q4 + 4 := by omega
      rw [hy]
      have hleapy : isLeap (400*q400 + 100*q100 + 4*q4 + 4) = true := by
        refine (isLeap_iff_digits (400*q400 + 100*q100 + 4*q4 + 4) q400 q100 q4 3
          (by omega) (by omega) (by omega) (by omega) (by omega)).mp ?_
        simp only [Bool.and_eq_true, Bool.or_eq_true, beq_iff_eq, bne_iff_ne, ne_eq, true_and]
        omega
      have hdby := daysBeforeYear_of_digits (400*q400 + 100*q100 + 4*q4 + 4) q400 q100 q4 3
        (by omega) (by omega) (by omega) (by omega) (by omega)
      have hdbm : daysBeforeMonth true 12 = 335 := rfl
      simp only [ymd2ord, hleapy, hdbm]
      omega
  · -- ordinary day
    have hq1le : q1 ≤ 3 := by omega
    have hq100le : q100 ≤ 3 := by omega
    have hcond : (q1 == 4 || q100 == 4) = false := by
      simp only [Bool.or_eq_false_iff, beq_eq_false_iff_ne, ne_eq]
      omega
    simp only [ord2ymd, e1, e2, e3, e4, e5, hcond, Bool.false_eq_true, if_false]
    have hleapy : (q1 == 3 && (q4 != 24 || q100 == 3)) =
        isLeap (q400 * 400 + q100 * 100 + q4 * 4 + q1 + 1) :=
      isLeap_digits (q400 * 400 + q100 * 100 + q4 * 4 + q1 + 1) q400 q100 q4 q1
        (by omega) (by omega) (by omega) (by omega) (by omega)
    rw [hleapy]
    have hr4 : r4 < (if isLeap (q400 * 400 + q100 * 100 + q4 * 4 + q1 + 1) then 366 else 365) := by
      split <;> omega
    have hfm := findMonth_correct (isLeap (q400 * 400 + q100 * 100 + q4 * 4 + q1 + 1))
      r4 (by omega) hr4
    have hdby := daysBeforeYear_of_digits (q400 * 400 + q100 * 100 + q4 * 4 + q1 + 1)
      q400 q100 q4 q1 (by omega) (by omega) (by omega) (by omega) (by omega)
    rcases hfm with ⟨hf1, hf2, hf3, hf4, hf5⟩
    simp only [ymd2ord]
    omega

/-! ### The `DateTime` class (`obspy/core/util.py`)

A `DateTime` value is a `datetime.datetime`: seven calendar fields.  The
constructor paths of `DateTime.__new__` and the `timestamp` method are
modelled below.  Epoch timestamps are measured in integer microseconds,
representing exactly the floats whose fractional part is a whole number of
microseconds. -/

/-- Calendar fields of a `DateTime` value. -/
structure DT where
  year : Nat
  month : Nat
  day : Nat
  hour : Nat
  minute : Nat
  second : Nat
  microsecond : Nat
deriving DecidableEq, Repr

/-- Proleptic Gregorian ordinal of 1970-01-01 (CPython `_EPOCH_ORD`). -/
def epochOrdinal : Nat := 719163

/-- The `DateTime(arg)` numeric path: `datetime.datetime.utcfromtimestamp`,
decomposing an epoch timestamp (integer microseconds) into UTC calendar
fields, independent of any local timezone. -/
def DT.ofEpochMicro (k : Int) : DT :=
  let s := k / 1000000
  let us := (k % 1000000).toNat
  let days := s / 86400
  let sod := (s % 86400).toNat
  let ymd := ord2ymd (days + (epochOrdinal : Int)).toNat
  ⟨ymd.1, ymd.2.1, ymd.2.2, sod / 3600, sod % 3600 / 60, sod % 60, us⟩

/-- `calendar.timegm` of the value's time tuple: UTC calendar fields to whole
seconds since the epoch, via the ordinal (never via local time). -/
def timegm (t : DT) : Int :=
  ((ymd2ord t.year t.month t.day : Int) - (epochOrdinal : Int)) * 86400
    + t.hour * 3600 + t.minute * 60 + t.second

/-- `DateTime.timestamp()`: `timegm(self.timetuple()) + self.microsecond / 1.0e6`,
at microsecond granularity. -/
def DT.timestampMicro (t : DT) : Int :=
  timegm t * 1000000 + t.microsecond

/-- Validity of the seven fields, exactly the ranges `datetime.datetime`
accepts (years 1..9999, calendar-consistent day of month, time fields in
range). -/
def DT.Valid (t : DT) : Prop :=
  1 ≤ t.year ∧ t.year ≤ 9999 ∧ 1 ≤ t.month ∧ t.month ≤ 12 ∧
  1 ≤ t.day ∧ t.day ≤ daysInMonthTbl (isLeap t.year) t.month ∧
  t.hour < 24 ∧ t.minute < 60 ∧ t.second < 60 ∧ t.microsecond < 1000000

instance (t : DT) : Decidable t.Valid := by
  unfold DT.Valid
  infer_instance

/-- Smallest representable epoch timestamp in microseconds
(0001-01-01T00:00:00). -/
def minEpochMicro : Int := -62135596800000000

/-- Largest representable epoch timestamp in microseconds
(9999-12-31T23:59:59.999999). -/
def maxEpochMicro : Int := 253402300799999999

/-- `ord2ymd` applied to anything equal to `ymd2ord y m d` returns
`(y, m, d)`, for a valid date. -/
theorem ord2ymd_eq (X y m d : Nat) (hX : X = ymd2ord y m d) (hy : 1 ≤ y)
    (hm : 1 ≤ m) (hm2 : m ≤ 12) (hd : 1 ≤ d)
    (hd2 : d ≤ daysInMonthTbl (isLeap y) m) :
    ord2ymd X = (y, m, d) := by
  rw [hX]
  exact ord2ymd_ymd2ord y m d hy hm hm2 hd hd2

/-- The ordinal of any date with day field at least 1 is at least 1. -/
theorem ymd2ord_pos (y m d : Nat) (hd : 1 ≤ d) : 1 ≤ ymd2ord y m d := by
  simp only [ymd2ord]
  omega

/-- Epoch round trip, core lemma: decomposing a representable epoch timestamp
into calendar fields and converting back via `timegm` is the identity. -/
theorem timestampMicro_ofEpochMicro (k : Int) (hlo : minEpochMicro ≤ k)
    (hhi : k ≤ maxEpochMicro) :
    DT.timestampMicro (DT.ofEpochMicro k) = k := by
  simp only [minEpochMicro, maxEpochMicro] at hlo hhi
  have hrt := ymd2ord_ord2ymd (k / 1000000 / 86400 + (epochOrdinal : Int)).toNat
    (by simp only [epochOrdinal]; omega)
  simp only [DT.timestampMicro, timegm, DT.ofEpochMicro, epochOrdinal] at hrt ⊢
  omega

/-- Epoch round trip, core lemma: a valid calendar value is recovered exactly
from its own epoch timestamp. -/
theorem ofEpochMicro_timestampMicro (t : DT) (hv : t.Valid) :
    DT.ofEpochMicro (DT.timestampMicro t) = t := by
  obtain ⟨y, m, d, h, mi, s, us⟩ := t
  replace hv : 1 ≤ y ∧ y ≤ 9999 ∧ 1 ≤ m ∧ m ≤ 12 ∧ 1 ≤ d ∧
      d ≤ daysInMonthTbl (isLeap y) m ∧ h < 24 ∧ mi < 60 ∧ s < 60 ∧ us < 1000000 := hv
  obtain ⟨hy1, hy2, hm1, hm2, hd1, hd2, hh, hmi, hs, hus⟩ := hv
  have hop : 1 ≤ ymd2ord y m d := ymd2ord_pos y m d hd1
  simp only [DT.timestampMicro, timegm, DT.ofEpochMicro, epochOrdinal, DT.mk.injEq]
  refine ⟨?_, ?_, ?_, by omega, by omega, by omega, by omega⟩ <;>
  · rw [ord2ymd_eq _ y m d (by omega) hy1 hm1 hm2 hd1 hd2]

/-- The error raised by the `DateTime` constructors on calendar-invalid or
range-invalid input (Python `ValueError`; the spec names it
`InvalidTimeError`). -/
inductive TimeError where
  | invalidTime
deriving DecidableEq, Repr

/-- The `DateTime(year, month, day, ...)` field path — the base
`datetime.datetime.__new__`, which raises exactly on out-of-range fields. -/
def DateTime.ofFields (y m d h mi s us : Nat) : Except TimeError DT :=
  if DT.Valid ⟨y, m, d, h, mi, s, us⟩ then Except.ok ⟨y, m, d, h, mi, s, us⟩
  else Except.error TimeError.invalidTime

/-- The `DateTime(x)` numeric path with its failure behaviour:
`utcfromtimestamp` raises when the timestamp falls outside the representable
calendar range (years 1..9999). -/
def DateTime.ofEpochMicroE (k : Int) : Except TimeError DT :=
  if minEpochMicro ≤ k ∧ k ≤ maxEpochMicro then Except.ok (DT.ofEpochMicro k)
  else Except.error TimeError.invalidTime

/-- A Python `datetime.datetime` argument as passed to the copy path: seven
calendar fields plus optional timezone information (a UTC offset). -/
structure AwareDatetime where
  year : Nat
  month : Nat
  day : Nat
  hour : Nat
  minute : Nat
  second : Nat
  microsecond : Nat
  utcOffsetMinutes : Option Int
deriving DecidableEq, Repr

/-- The `DateTime(arg)` copy path for `isinstance(arg, datetime.datetime)`:
`datetime.datetime.__new__(cls, dt.year, dt.month, dt.day, dt.hour,
dt.minute, dt.second, dt.microsecond)` — the seven fields are passed through
and `tzinfo` is not passed at all. -/
def DateTime.ofDatetime (d : AwareDatetime) : DT :=
  ⟨d.year, d.month, d.day, d.hour, d.minute, d.second, d.microsecond⟩

/-! ### The `Stats` class -/

/-- Values storable in a `Stats` record (strings, floats, ints, times —
floats are exact here, matching the module's use of them). -/
inductive Value where
  | str (s : String)
  | float (q : ℚ)
  | int (n : Int)
  | time (t : DT)
deriving DecidableEq, Repr

/-- Write one key of a Python dict: update in place when present, else
append. -/
def setItem : List (String × Value) → String → Value → List (String × Value)
  | [], k, v => [(k, v)]
  | (k0, v0) :: rest, k, v =>
    if k0 = k then (k0, v) :: rest else (k0, v0) :: setItem rest k v

/-- Keyed read of a Python dict (`d[k]` / `d.get(k)`). -/
def getItem : List (String × Value) → String → Option Value
  | [], _ => none
  | (k0, v0) :: rest, k => if k0 = k then some v0 else getItem rest k

/-- A `Stats` object.  Because `__init__` executes `self.__dict__ = self`,
the attribute namespace and the mapping are the same store; that single
store is modelled here. -/
structure Stats where
  entries : List (String × Value)
deriving DecidableEq, Repr

/-- Attribute write `stats.k = v`: lands in `self.__dict__`, which is the
dict itself. -/
def Stats.setattr (r : Stats) (k : String) (v : Value) : Stats :=
  ⟨setItem r.entries k v⟩

/-- Keyed write `stats[k] = v`. -/
def Stats.setitem (r : Stats) (k : String) (v : Value) : Stats :=
  ⟨setItem r.entries k v⟩

/-- Attribute read `stats.k`: looked up in `self.__dict__`, which is the
dict itself. -/
def Stats.getattr (r : Stats) (k : String) : Option Value :=
  getItem r.entries k

/-- Keyed read `stats[k]` / `stats.get(k)`. -/
def Stats.get (r : Stats) (k : String) : Option Value :=
  getItem r.entries k

/-- The default field assignments executed at the end of `Stats.__init__`
(the "fill some dummy values" block), in source order. -/
def statsDefaults : List (String × Value) :=
  [("station", Value.str "dummy"),
   ("sampling_rate", Value.float 1),
   ("npts", Value.int (-1)),
   ("network", Value.str "--"),
   ("location", Value.str ""),
   ("channel", Value.str "BHZ"),
   ("dataquality", Value.str ""),
   ("starttime", Value.time (DT.ofEpochMicro 0)),
   ("endtime", Value.time (DT.ofEpochMicro 86400000000))]

/-- `Stats(...)`: `dict.__init__` seeds the store with the supplied pairs
(later duplicates win), `self.__dict__ = self` aliases the attribute table
to the store, and then each default assignment `self.<field> = <default>`
writes through that alias. -/
def Stats.init (initial : List (String × Value)) : Stats :=
  ⟨statsDefaults.foldl (fun acc kv => setItem acc kv.1 kv.2)
      (initial.foldl (fun acc kv => setItem acc kv.1 kv.2) [])⟩

/-! ### The format registry (`getFormatsAndMethods`) -/

/-- The objects bound by a successful
`from obspy.<fmt>.core import is<Fmt>, read<Fmt>, write<Fmt>`.
`α` is the type of the bound function objects. -/
structure CoreModule (α : Type) where
  isFn : α
  readFn : α
  writeFn : α
deriving DecidableEq, Repr

/-- Outcome of one import attempt: the bound module, or an exception whose
`traceback.format_exc()` rendering is the given string (this covers a
missing module and a module that raises while being imported alike). -/
inductive ImportResult (α : Type) where
  | ok (m : CoreModule α)
  | exn (trace : String)
deriving DecidableEq, Repr

/-- One entry of the `temp` list built by `getFormatsAndMethods`:
`[name, isFormat, readFormat, writeFormat]`. -/
structure FormatEntry (α : Type) where
  name : String
  isFn : α
  readFn : α
  writeFn : α
deriving DecidableEq, Repr

/-- Performing an import inside the exception monad: a failed import raises,
carrying its traceback. -/
def importCore {α : Type} (r : ImportResult α) : Except String (CoreModule α) :=
  match r with
  | ImportResult.ok m => Except.ok m
  | ImportResult.exn t => Except.error t

/-- One `try/except` block of `getFormatsAndMethods`: run the import and on
success append the format entry to `temp`; on any exception append the
traceback string to `failure` and fall through to the next block. -/
def tryAppend {α : Type} (st : List (FormatEntry α) × List String) (name : String)
    (r : ImportResult α) : Except String (List (FormatEntry α) × List String) :=
  Except.tryCatch
    (do
      let m ← importCore r
      pure (st.1 ++ [⟨name, m.isFn, m.readFn, m.writeFn⟩], st.2))
    (fun e => pure (st.1, st.2 ++ [e]))

/-- The body of `getFormatsAndMethods` up to its `return` statement: the
`temp` and `failure` lists after the three guarded import attempts, which
are made in the fixed order MSEED, GSE2, WAV. -/
def getFormatsAndMethodsRun {α : Type} (mseed gse2 wav : ImportResult α) :
    Except String (List (FormatEntry α) × List String) := do
  let st1 ← tryAppend ([], []) "MSEED" mseed
  let st2 ← tryAppend st1 "GSE2" gse2
  let st3 ← tryAppend st2 "WAV" wav
  pure st3

/-- `getFormatsAndMethods(verbose=False)`: the function's returned value is
`temp` alone — the format-entry list, not the failure list. -/
def getFormatsAndMethods {α : Type} (mseed gse2 wav : ImportResult α) :
    Except String (List (FormatEntry α)) :=
  Except.map Prod.fst (getFormatsAndMethodsRun mseed gse2 wav)

/-- The entry contributed by one candidate: present exactly when its import
succeeded. -/
def entryOf {α : Type} (name : String) : ImportResult α → Option (FormatEntry α)
  | ImportResult.ok m => some ⟨name, m.isFn, m.readFn, m.writeFn⟩
  | ImportResult.exn _ => none

/-- The traceback contributed by one candidate: present exactly when its own
module import failed. -/
def traceOf {α : Type} : ImportResult α → Option String
  | ImportResult.ok _ => none
  | ImportResult.exn t => some t

/-- The format entries of the successful candidates, in the fixed candidate
order MSEED, GSE2, WAV. -/
def expectedEntries {α : Type} (mseed gse2 wav : ImportResult α) :
    List (FormatEntry α) :=
  [entryOf "MSEED" mseed, entryOf "GSE2" gse2, entryOf "WAV" wav].filterMap id

/-- The tracebacks of the failed candidates, in the fixed candidate order. -/
def expectedFailures {α : Type} (mseed gse2 wav : ImportResult α) : List String :=
  [traceOf mseed, traceOf gse2, traceOf wav].filterMap id

/-! ### Store lemmas -/

/-- Reading a key right after writing it returns the written value. -/
theorem getItem_setItem_self (l : List (String × Value)) (k : String) (v : Value) :
    getItem (setItem l k v) k = some v := by
  induction l with
  | nil => simp [setItem, getItem]
  | cons hd tl ih =>
    obtain ⟨k0, v0⟩ := hd
    by_cases h : k0 = k
    · simp [setItem, getItem, h]
    · simp [setItem, getItem, h, ih]

/-- Writing one key leaves every other key unchanged. -/
theorem getItem_setItem_other (l : List (String × Value)) (a b : String) (v : Value)
    (h : a ≠ b) : getItem (setItem l a v) b = getItem l b := by
  induction l with
  | nil => simp [setItem, getItem, h]
  | cons hd tl ih =>
    obtain ⟨k0, v0⟩ := hd
    by_cases h0 : k0 = a
    · subst h0
      simp [setItem, getItem, h]
    · simp only [setItem, if_neg h0]
      by_cases h1 : k0 = b
      · simp [getItem, h1]
      · simp [getItem, h1, ih]

/-! ### Claim theorems -/

/-- C6: every field of a `Stats` record, documented or dynamically added, is
readable and writable both as an attribute and as a keyed entry, and the two
views always agree: a write through either path is read back through the
other, because both paths address the single shared store. -/
theorem stats_dual_access (r : Stats) (k : String) (v : Value) :
    Stats.get (Stats.setattr r k v) k = some v ∧
    Stats.getattr (Stats.setitem r k v) k = some v ∧
    ∀ r0 : Stats, Stats.getattr r0 k = Stats.get r0 k :=
  ⟨getItem_setItem_self r.entries k v, getItem_setItem_self r.entries k v,
   fun _ => rfl⟩

/-- C3 (counterexample): constructing `Stats` with an initial mapping
`{"station": "ROTZ"}` does not keep the supplied value: the default
assignments run after `self.__dict__ = self` and overwrite it with
`"dummy"`. -/
theorem stats_initial_station_not_kept :
    ¬ (Stats.get (Stats.init [("station", Value.str "ROTZ")]) "station" =
        some (Value.str "ROTZ")) := by
  decide

/-- C3 (amended): after `Stats` construction every documented field reads its
built-in default, whatever the initial mapping supplied for it, while keys
outside the nine documented fields keep exactly the value seeded by
`dict.__init__`. -/
theorem stats_init_amended (ps : List (String × Value)) (k : String)
    (h1 : k ≠ "station") (h2 : k ≠ "sampling_rate") (h3 : k ≠ "npts")
    (h4 : k ≠ "network") (h5 : k ≠ "location") (h6 : k ≠ "channel")
    (h7 : k ≠ "dataquality") (h8 : k ≠ "starttime") (h9 : k ≠ "endtime") :
    Stats.get (Stats.init ps) k =
      getItem (ps.foldl (fun acc kv => setItem acc kv.1 kv.2) []) k ∧
    ∀ kd vd, (kd, vd) ∈ statsDefaults → Stats.get (Stats.init ps) kd = some vd := by
  constructor
  · simp only [Stats.get, Stats.init, statsDefaults, List.foldl]
    rw [getItem_setItem_other _ _ _ _ (Ne.symm h9), getItem_setItem_other _ _ _ _ (Ne.symm h8),
        getItem_setItem_other _ _ _ _ (Ne.symm h7), getItem_setItem_other _ _ _ _ (Ne.symm h6),
        getItem_setItem_other _ _ _ _ (Ne.symm h5), getItem_setItem_other _ _ _ _ (Ne.symm h4),
        getItem_setItem_other _ _ _ _ (Ne.symm h3), getItem_setItem_other _ _ _ _ (Ne.symm h2),
        getItem_setItem_other _ _ _ _ (Ne.symm h1)]
  · intro kd vd hmem
    simp only [statsDefaults, List.mem_cons, List.not_mem_nil, or_false] at hmem
    simp only [Stats.get, Stats.init, statsDefaults, List.foldl]
    rcases hmem with h | h | h | h | h | h | h | h | h <;>
      · cases h
        repeat
          first
            | rw [getItem_setItem_self]
            | rw [getItem_setItem_other _ _ _ _ (by decide)]

/-- C3 (witness): with the initial mapping seeding station `"ROTZ"` and a
dynamic key `"custom"`, the custom key keeps its value while station reads
the default `"dummy"`. -/
theorem stats_init_amended_witness :
    Stats.get (Stats.init [("station", Value.str "ROTZ"), ("custom", Value.int 5)]) "custom" =
      some (Value.int 5) ∧
    Stats.get (Stats.init [("station", Value.str "ROTZ"), ("custom", Value.int 5)]) "station" =
      some (Value.str "dummy") := by
  have h := stats_init_amended [("station", Value.str "ROTZ"), ("custom", Value.int 5)] "custom"
    (by decide) (by decide) (by decide) (by decide) (by decide) (by decide) (by decide)
    (by decide) (by decide)
  exact ⟨by rw [h.1]; rfl, h.2 "station" (Value.str "dummy") (by decide)⟩

/-- C1: for every combination of candidate backend outcomes, discovery runs
to completion inside the exception monad — it never propagates an error: each
failed import is caught in its own `try/except` block, its traceback string
is appended to the failure list, and the remaining candidates are still
attempted, in the fixed order. -/
theorem registry_discovery_never_raises {α : Type} (mseed gse2 wav : ImportResult α) :
    getFormatsAndMethodsRun mseed gse2 wav =
      Except.ok (expectedEntries mseed gse2 wav, expectedFailures mseed gse2 wav) := by
  cases mseed <;> cases gse2 <;> cases wav <;> rfl

/-- C2 (counterexample): `getFormatsAndMethods` does not return a
(descriptors, failures) pair — its return value is the descriptor list alone,
so runs that differ only in their failure tracebacks return identical
values. -/
theorem registry_return_drops_failures :
    @getFormatsAndMethods Unit (ImportResult.exn "trace-A") (ImportResult.exn "trace-B")
        (ImportResult.exn "trace-C") = Except.ok [] ∧
    @getFormatsAndMethods Unit (ImportResult.exn "trace-A") (ImportResult.exn "trace-B")
        (ImportResult.exn "trace-C") =
      @getFormatsAndMethods Unit (ImportResult.exn "other-1") (ImportResult.exn "other-2")
        (ImportResult.exn "other-3") ∧
    ("trace-A" : String) ≠ "other-1" :=
  ⟨rfl, rfl, by decide⟩

/-- C2 (amended): for every input, `getFormatsAndMethods` returns exactly the
list of successfully bound format entries; the captured failure strings are
kept in the internal failure list but are not part of the return value. -/
theorem registry_returns_entry_list {α : Type} (mseed gse2 wav : ImportResult α) :
    getFormatsAndMethods mseed gse2 wav = Except.ok (expectedEntries mseed gse2 wav) := by
  cases mseed <;> cases gse2 <;> cases wav <;> rfl

/-- The `temp` list produced by a discovery run. -/
def discoveredEntries {α : Type} (mseed gse2 wav : ImportResult α) :
    List (FormatEntry α) :=
  match getFormatsAndMethodsRun mseed gse2 wav with
  | Except.ok st => st.1
  | Except.error _ => []

/-- C7: the discovered entry list is exactly the fixed candidate order
(MSEED, GSE2, WAV) restricted to the successful backends, its format names
contain no duplicates, and it does not depend on how the failed candidates
failed. -/
theorem registry_order_properties {α : Type} (mseed gse2 wav : ImportResult α) :
    discoveredEntries mseed gse2 wav = expectedEntries mseed gse2 wav ∧
    ((discoveredEntries mseed gse2 wav).map FormatEntry.name).Nodup ∧
    ∀ mseed2 gse22 wav2 : ImportResult α,
      entryOf "MSEED" mseed2 = entryOf "MSEED" mseed →
      entryOf "GSE2" gse22 = entryOf "GSE2" gse2 →
      entryOf "WAV" wav2 = entryOf "WAV" wav →
      discoveredEntries mseed2 gse22 wav2 = discoveredEntries mseed gse2 wav := by
  have hmain : ∀ m g w : ImportResult α, discoveredEntries m g w = expectedEntries m g w := by
    intro m g w
    cases m <;> cases g <;> cases w <;> rfl
  refine ⟨hmain _ _ _, ?_, ?_⟩
  · rw [hmain]
    cases mseed <;> cases gse2 <;> cases wav <;> simp [expectedEntries, entryOf]
  · intro m2 g2 w2 e1 e2 e3
    rw [hmain, hmain]
    simp only [expectedEntries, e1, e2, e3]

/-- C7 (witness): two runs whose backends failed with different exceptions
produce the same entry list. -/
theorem registry_order_properties_witness :
    @discoveredEntries Unit (ImportResult.exn "boom-1") (ImportResult.ok ⟨(), (), ()⟩)
        (ImportResult.exn "boom-2") =
      @discoveredEntries Unit (ImportResult.exn "different") (ImportResult.ok ⟨(), (), ()⟩)
        (ImportResult.exn "other") :=
  (registry_order_properties (ImportResult.exn "different") (ImportResult.ok ⟨(), (), ()⟩)
    (ImportResult.exn "other")).2.2 (ImportResult.exn "boom-1") (ImportResult.ok ⟨(), (), ()⟩)
    (ImportResult.exn "boom-2") rfl rfl rfl

/-- C8: constructing from epoch 0 yields 1970-01-01T00:00:00.000000 and
constructing from epoch 86400 yields 1970-01-02T00:00:00.000000. -/
theorem construct_epoch_zero_and_one_day :
    DT.ofEpochMicro 0 = ⟨1970, 1, 1, 0, 0, 0, 0⟩ ∧
    DT.ofEpochMicro 86400000000 = ⟨1970, 1, 2, 0, 0, 0, 0⟩ :=
  ⟨by decide, by decide⟩

/-- C10: the copy-conversion constructor carries over the seven calendar
fields of the given datetime unchanged and ignores any attached timezone
offset entirely — no adjustment is made and the result carries no timezone
information. -/
theorem copy_construction_drops_tzinfo (d : AwareDatetime) :
    (DateTime.ofDatetime d).year = d.year ∧ (DateTime.ofDatetime d).month = d.month ∧
    (DateTime.ofDatetime d).day = d.day ∧ (DateTime.ofDatetime d).hour = d.hour ∧
    (DateTime.ofDatetime d).minute = d.minute ∧ (DateTime.ofDatetime d).second = d.second ∧
    (DateTime.ofDatetime d).microsecond = d.microsecond ∧
    ∀ off : Option Int,
      DateTime.ofDatetime ⟨d.year, d.month, d.day, d.hour, d.minute, d.second,
        d.microsecond, off⟩ = DateTime.ofDatetime d :=
  ⟨rfl, rfl, rfl, rfl, rfl, rfl, rfl, fun _ => rfl⟩

/-- C4: for every representable epoch value with a microsecond-aligned
fractional part (represented exactly by its total count of microseconds),
decomposing it into calendar fields with the constructor and converting back
with `timestamp()` returns the original value exactly. -/
theorem construct_to_epoch_roundtrip (k : Int) (hlo : minEpochMicro ≤ k)
    (hhi : k ≤ maxEpochMicro) :
    DT.timestampMicro (DT.ofEpochMicro k) = k :=
  timestampMicro_ofEpochMicro k hlo hhi

/-- C4 (witness): the round trip at the doctest timestamp
1240561632.005. -/
theorem construct_to_epoch_roundtrip_witness :
    minEpochMicro ≤ (1240561632005000 : Int) ∧
    (1240561632005000 : Int) ≤ maxEpochMicro ∧
    DT.timestampMicro (DT.ofEpochMicro 1240561632005000) = 1240561632005000 :=
  ⟨by decide, by decide,
   construct_to_epoch_roundtrip 1240561632005000 (by decide) (by decide)⟩

/-- Days before any existing month are bounded by December's offset. -/
theorem daysBeforeMonth_le : ∀ (leap : Bool), ∀ m < 13, 1 ≤ m →
    daysBeforeMonth leap m ≤ 334 + (if leap then 1 else 0) := by
  decide

/-- The timestamp of every valid calendar value stays inside the
representable epoch range, so converting a constructed value can never fail
the range check. -/
theorem timestampMicro_range (t : DT) (hv : t.Valid) :
    minEpochMicro ≤ DT.timestampMicro t ∧ DT.timestampMicro t ≤ maxEpochMicro := by
  obtain ⟨y, m, d, h, mi, s, us⟩ := t
  replace hv : 1 ≤ y ∧ y ≤ 9999 ∧ 1 ≤ m ∧ m ≤ 12 ∧ 1 ≤ d ∧
      d ≤ daysInMonthTbl (isLeap y) m ∧ h < 24 ∧ mi < 60 ∧ s < 60 ∧ us < 1000000 := hv
  obtain ⟨hy1, hy2, hm1, hm2, hd1, hd2, hh, hmi, hs, hus⟩ := hv
  have hdbm := daysBeforeMonth_le (isLeap y) m (by omega) hm1
  have hdim : d ≤ 31 := le_trans hd2 (daysInMonthTbl_le (isLeap y) m (by omega))
  have hord1 : 1 ≤ ymd2ord y m d := ymd2ord_pos y m d hd1
  have hordmax : ymd2ord y m d ≤ 3652059 := by
    by_cases hl : isLeap y = true
    · have hy4 : y % 4 = 0 := by
        simp only [isLeap, Bool.or_eq_true, Bool.and_eq_true, beq_iff_eq,
          bne_iff_ne, ne_eq] at hl
        omega
      rw [if_pos hl] at hdbm
      simp only [ymd2ord, daysBeforeYear]
      omega
    · rw [if_neg hl] at hdbm
      simp only [ymd2ord, daysBeforeYear]
      omega
  simp only [DT.timestampMicro, timegm, epochOrdinal, minEpochMicro, maxEpochMicro]
  omega

/-- C9: the field constructor errors exactly on calendar-invalid input, the
epoch constructor errors exactly on range-invalid input, and `timestamp()`
cannot fail on any successfully constructed value — every valid value's
timestamp stays inside the representable range. -/
theorem constructors_error_exactly_on_invalid :
    (∀ y m d h mi s us : Nat,
      DateTime.ofFields y m d h mi s us = Except.error TimeError.invalidTime ↔
        ¬ DT.Valid ⟨y, m, d, h, mi, s, us⟩) ∧
    (∀ k : Int,
      DateTime.ofEpochMicroE k = Except.error TimeError.invalidTime ↔
        ¬ (minEpochMicro ≤ k ∧ k ≤ maxEpochMicro)) ∧
    (∀ t : DT, DT.Valid t →
      minEpochMicro ≤ DT.timestampMicro t ∧ DT.timestampMicro t ≤ maxEpochMicro) := by
  refine ⟨?_, ?_, timestampMicro_range⟩
  · intro y m d h mi s us
    unfold DateTime.ofFields
    split <;> simp_all
  · intro k
    unfold DateTime.ofEpochMicroE
    split <;> simp_all

/-- C9 (witness): month 13 is rejected, a timestamp one past the maximum is
rejected, and the doctest value's timestamp lies inside the range. -/
theorem constructors_error_witness :
    DateTime.ofFields 2009 13 1 0 0 0 0 = Except.error TimeError.invalidTime ∧
    DateTime.ofEpochMicroE (maxEpochMicro + 1) = Except.error TimeError.invalidTime ∧
    minEpochMicro ≤ DT.timestampMicro ⟨2009, 4, 24, 8, 27, 12, 5000⟩ ∧
    DT.timestampMicro ⟨2009, 4, 24, 8, 27, 12, 5000⟩ ≤ maxEpochMicro :=
  ⟨(constructors_error_exactly_on_invalid.1 2009 13 1 0 0 0 0).mpr (by decide),
   (constructors_error_exactly_on_invalid.2.1 (maxEpochMicro + 1)).mpr (by decide),
   (constructors_error_exactly_on_invalid.2.2 ⟨2009, 4, 24, 8, 27, 12, 5000⟩ (by decide)).1,
   (constructors_error_exactly_on_invalid.2.2 ⟨2009, 4, 24, 8, 27, 12, 5000⟩ (by decide)).2⟩

/-! ### IEEE-754 double rounding

`timestamp()` computes `float(timegm(self.timetuple())) + self.microsecond /
1.0e6` in double precision, and `DateTime(x)` for a float `x` goes through
`datetime.utcfromtimestamp`, which computes `t, frac = divmod(x, 1.0)` and
`us = int(round(frac * 1e6))`.  Doubles are modelled as exact rationals and
every individual arithmetic operation is followed by an explicit rounding
step `fl` (round to nearest, ties to even, 53-bit significand; the values
used here are far from the subnormal and overflow ranges).  The operations
of `divmod(x, 1.0)` (floor and remainder of a double) are exact in IEEE
arithmetic and are modelled by exact floor and subtraction. -/

/-- Fuel-bounded binary logarithm on naturals, structurally recursive. -/
def log2fuel : Nat → Nat → Nat
  | 0, _ => 0
  | fuel+1, n => if 2 ≤ n then log2fuel fuel (n / 2) + 1 else 0

theorem log2fuel_bounds (fuel : Nat) : ∀ n, 1 ≤ n → n < 2^fuel →
    2^(log2fuel fuel n) ≤ n ∧ n < 2^(log2fuel fuel n + 1) := by
  induction fuel with
  | zero =>
    intro n h1 h2
    simp only [pow_zero] at h2
    omega
  | succ f ih =>
    intro n h1 h2
    by_cases hn : 2 ≤ n
    · have hrec := ih (n / 2) (by omega) (by rw [pow_succ] at h2; omega)
      simp only [log2fuel, if_pos hn]
      rw [pow_succ, pow_succ]
      rw [pow_succ] at hrec
      omega
    · simp only [log2fuel, if_neg hn]
      norm_num
      omega

/-- Binary logarithm used by the double-rounding model (enough fuel for all
magnitudes appearing here). -/
def nlog2 (n : Nat) : Nat := log2fuel 400 n

/-- The binade exponent of a nonzero rational: the unique `e` with
`2^e ≤ |q| < 2^(e+1)` (for magnitudes within `2^±300`). -/
def binExp (q : ℚ) : ℤ :=
  if 1 ≤ |q| then (nlog2 ⌊|q|⌋.toNat : ℤ)
  else
    let f := nlog2 ⌊|q|⁻¹⌋.toNat
    if |q| = (2:ℚ) ^ (-(f:ℤ)) then -(f:ℤ) else -(f:ℤ) - 1

/-- Casting a natural power of two to the rationals, as a `zpow`. -/
theorem zpow_natCast_two (n : ℕ) : (2:ℚ) ^ ((n:ℕ) : ℤ) = ((2^n : ℕ) : ℚ) := by
  rw [zpow_natCast]
  push_cast
  ring

/-- `binExp` computes the binade: `2 ^ binExp q ≤ |q| < 2 ^ (binExp q + 1)`,
for magnitudes within `2 ^ ±128`. -/
theorem binExp_bounds (q : ℚ) (hq : q ≠ 0) (hlo : (2:ℚ)^(-(128:ℤ)) ≤ |q|)
    (hhi : |q| ≤ (2:ℚ)^(128:ℤ)) :
    (2:ℚ) ^ (binExp q) ≤ |q| ∧ |q| < (2:ℚ) ^ (binExp q + 1) := by
  have h128 : (2:ℚ)^(128:ℤ) = ((2^128 : ℕ) : ℚ) := by
    norm_num
  by_cases h1 : 1 ≤ |q|
  · have hfl1 : (1:ℤ) ≤ ⌊|q|⌋ := by
      rw [Int.le_floor]
      exact_mod_cast h1
    have hNval : (⌊|q|⌋.toNat : ℤ) = ⌊|q|⌋ := Int.toNat_of_nonneg (by omega)
    have hNlt : ⌊|q|⌋.toNat < 2^400 := by
      have hfle : (⌊|q|⌋ : ℚ) ≤ (2:ℚ)^(128:ℤ) := le_trans (Int.floor_le |q|) hhi
      rw [h128] at hfle
      have h2 : ⌊|q|⌋ ≤ ((2^128 : ℕ) : ℤ) := by exact_mod_cast hfle
      have h3 : (2:ℕ)^128 < 2^400 := by norm_num
      omega
    have hb := log2fuel_bounds 400 ⌊|q|⌋.toNat (by omega) hNlt
    have hcastN : ((⌊|q|⌋.toNat : ℕ) : ℚ) = ((⌊|q|⌋ : ℤ) : ℚ) := by
      exact_mod_cast hNval
    simp only [binExp, if_pos h1, nlog2]
    constructor
    · calc (2:ℚ) ^ ((log2fuel 400 ⌊|q|⌋.toNat : ℕ) : ℤ) =
          ((2 ^ log2fuel 400 ⌊|q|⌋.toNat : ℕ) : ℚ) := zpow_natCast_two _
        _ ≤ ((⌊|q|⌋.toNat : ℕ) : ℚ) := by exact_mod_cast hb.1
        _ = ((⌊|q|⌋ : ℤ) : ℚ) := hcastN
        _ ≤ |q| := Int.floor_le |q|
    · have hstep : (⌊|q|⌋ + 1 : ℤ) ≤ ((2 ^ (log2fuel 400 ⌊|q|⌋.toNat + 1) : ℕ) : ℤ) := by
        omega
      calc |q| < ⌊|q|⌋ + 1 := Int.lt_floor_add_one |q|
        _ ≤ ((2 ^ (log2fuel 400 ⌊|q|⌋.toNat + 1) : ℕ) : ℚ) := by
            have h2 : ((⌊|q|⌋ + 1 : ℤ) : ℚ) ≤ ((2 ^ (log2fuel 400 ⌊|q|⌋.toNat + 1) : ℕ) : ℚ) := by
              exact_mod_cast hstep
            push_cast at h2 ⊢
            linarith
        _ = (2:ℚ) ^ (((log2fuel 400 ⌊|q|⌋.toNat + 1 : ℕ)) : ℤ) := (zpow_natCast_two _).symm
        _ = (2:ℚ) ^ (((log2fuel 400 ⌊|q|⌋.toNat : ℕ) : ℤ) + 1) := by
            norm_cast
  · push_neg at h1
    have hq0 : 0 < |q| := abs_pos.mpr hq
    have hr1 : 1 < |q|⁻¹ := one_lt_inv_iff₀.mpr ⟨hq0, h1⟩
    have hr0 : 0 < |q|⁻¹ := by positivity
    have hfl1 : (1:ℤ) ≤ ⌊|q|⁻¹⌋ := by
      rw [Int.le_floor]
      push_cast
      linarith
    have hMval : (⌊|q|⁻¹⌋.toNat : ℤ) = ⌊|q|⁻¹⌋ := Int.toNat_of_nonneg (by omega)
    have hrle : |q|⁻¹ ≤ (2:ℚ)^(128:ℤ) := by
      have h2 : (2:ℚ)^(-(128:ℤ)) = ((2:ℚ)^(128:ℤ))⁻¹ := by
        rw [zpow_neg]
      rw [h2] at hlo
      calc |q|⁻¹ ≤ (((2:ℚ)^(128:ℤ))⁻¹)⁻¹ := (inv_le_inv₀ hq0 (by positivity)).mpr hlo
        _ = (2:ℚ)^(128:ℤ) := inv_inv _
    have hMlt : ⌊|q|⁻¹⌋.toNat < 2^400 := by
      have hfle : (⌊|q|⁻¹⌋ : ℚ) ≤ (2:ℚ)^(128:ℤ) := le_trans (Int.floor_le _) hrle
      rw [h128] at hfle
      have h2 : ⌊|q|⁻¹⌋ ≤ ((2^128 : ℕ) : ℤ) := by exact_mod_cast hfle
      have h3 : (2:ℕ)^128 < 2^400 := by norm_num
      omega
    have hb := log2fuel_bounds 400 ⌊|q|⁻¹⌋.toNat (by omega) hMlt
    have hcastM : ((⌊|q|⁻¹⌋.toNat : ℕ) : ℚ) = ((⌊|q|⁻¹⌋ : ℤ) : ℚ) := by
      exact_mod_cast hMval
    have hblo : (2:ℚ) ^ ((log2fuel 400 ⌊|q|⁻¹⌋.toNat : ℕ) : ℤ) ≤ |q|⁻¹ := by
      calc (2:ℚ) ^ ((log2fuel 400 ⌊|q|⁻¹⌋.toNat : ℕ) : ℤ) =
          ((2 ^ log2fuel 400 ⌊|q|⁻¹⌋.toNat : ℕ) : ℚ) := zpow_natCast_two _
        _ ≤ ((⌊|q|⁻¹⌋.toNat : ℕ) : ℚ) := by exact_mod_cast hb.1
        _ = ((⌊|q|⁻¹⌋ : ℤ) : ℚ) := hcastM
        _ ≤ |q|⁻¹ := Int.floor_le _
    have hbhi : |q|⁻¹ < (2:ℚ) ^ (((log2fuel 400 ⌊|q|⁻¹⌋.toNat : ℕ) : ℤ) + 1) := by
      have hstep : (⌊|q|⁻¹⌋ + 1 : ℤ) ≤ ((2 ^ (log2fuel 400 ⌊|q|⁻¹⌋.toNat + 1) : ℕ) : ℤ) := by
        omega
      calc |q|⁻¹ < ⌊|q|⁻¹⌋ + 1 := Int.lt_floor_add_one _
        _ ≤ ((2 ^ (log2fuel 400 ⌊|q|⁻¹⌋.toNat + 1) : ℕ) : ℚ) := by
            have h2 : ((⌊|q|⁻¹⌋ + 1 : ℤ) : ℚ) ≤ ((2 ^ (log2fuel 400 ⌊|q|⁻¹⌋.toNat + 1) : ℕ) : ℚ) := by
              exact_mod_cast hstep
            push_cast at h2 ⊢
            linarith
        _ = (2:ℚ) ^ (((log2fuel 400 ⌊|q|⁻¹⌋.toNat + 1 : ℕ)) : ℤ) := (zpow_natCast_two _).symm
        _ = (2:ℚ) ^ (((log2fuel 400 ⌊|q|⁻¹⌋.toNat : ℕ) : ℤ) + 1) := by
            norm_cast
    have hqle : |q| ≤ (2:ℚ) ^ (-((log2fuel 400 ⌊|q|⁻¹⌋.toNat : ℕ) : ℤ)) := by
      rw [zpow_neg]
      calc |q| = (|q|⁻¹)⁻¹ := (inv_inv _).symm
        _ ≤ ((2:ℚ) ^ ((log2fuel 400 ⌊|q|⁻¹⌋.toNat : ℕ) : ℤ))⁻¹ :=
            (inv_le_inv₀ hr0 (by positivity)).mpr hblo
    have hqgt : (2:ℚ) ^ (-((log2fuel 400 ⌊|q|⁻¹⌋.toNat : ℕ) : ℤ) - 1) < |q| := by
      rw [show -((log2fuel 400 ⌊|q|⁻¹⌋.toNat : ℕ) : ℤ) - 1 =
          -(((log2fuel 400 ⌊|q|⁻¹⌋.toNat : ℕ) : ℤ) + 1) by ring, zpow_neg]
      calc ((2:ℚ) ^ (((log2fuel 400 ⌊|q|⁻¹⌋.toNat : ℕ) : ℤ) + 1))⁻¹ < (|q|⁻¹)⁻¹ :=
            (inv_lt_inv₀ (by positivity) hr0).mpr hbhi
        _ = |q| := inv_inv _
    simp only [binExp, if_neg (not_le.mpr h1), nlog2]
    by_cases heq : |q| = (2:ℚ) ^ (-((log2fuel 400 ⌊|q|⁻¹⌋.toNat : ℕ) : ℤ))
    · rw [if_pos heq]
      refine ⟨le_of_eq heq.symm, ?_⟩
      calc |q| = (2:ℚ) ^ (-((log2fuel 400 ⌊|q|⁻¹⌋.toNat : ℕ) : ℤ)) := heq
        _ < (2:ℚ) ^ (-((log2fuel 400 ⌊|q|⁻¹⌋.toNat : ℕ) : ℤ) + 1) :=
            zpow_lt_zpow_right₀ (by norm_num) (by omega)
    · rw [if_neg heq]
      refine ⟨le_of_lt hqgt, ?_⟩
      rw [show -((log2fuel 400 ⌊|q|⁻¹⌋.toNat : ℕ) : ℤ) - 1 + 1 =
          -((log2fuel 400 ⌊|q|⁻¹⌋.toNat : ℕ) : ℤ) by ring]
      exact lt_of_le_of_ne hqle heq

/-- Round a rational to the nearest integer, ties to even. -/
def rne (x : ℚ) : ℤ :=
  let n := ⌊x⌋
  let f := x - n
  if 1/2 < f then n + 1
  else if f < 1/2 then n
  else if n % 2 = 0 then n else n + 1

/-- Round a rational to the nearest IEEE-754 double (round to nearest, ties
to even, 53-bit significand). -/
def fl (q : ℚ) : ℚ :=
  if q = 0 then 0
  else (rne (q / 2 ^ (binExp q - 52)) : ℚ) * 2 ^ (binExp q - 52)

/-- Rounding to the nearest integer moves a value by at most one half. -/
theorem rne_err (x : ℚ) : |(rne x : ℚ) - x| ≤ 1/2 := by
  have h1 : (⌊x⌋ : ℚ) ≤ x := Int.floor_le x
  have h2 : x < ⌊x⌋ + 1 := Int.lt_floor_add_one x
  simp only [rne]
  split
  · rename_i h
    rw [abs_le]
    constructor <;> push_cast <;> linarith
  · split
    · rename_i h h'
      rw [abs_le]
      constructor <;> push_cast <;> linarith
    · split <;> rename_i h h' h'' <;> rw [abs_le] <;> constructor <;> push_cast <;> linarith

/-- Integers are fixed points of integer rounding. -/
theorem rne_intCast (n : ℤ) : rne (n : ℚ) = n := by
  simp [rne, Int.floor_intCast]

/-- Zero is a fixed point of double rounding. -/
theorem fl_zero : fl 0 = 0 := rfl

/-- Double rounding moves a value by at most half an ulp of its binade. -/
theorem fl_err (q : ℚ) (hq : q ≠ 0) : |fl q - q| ≤ 2 ^ (binExp q - 53) := by
  rw [fl, if_neg hq]
  have hu : (0:ℚ) < 2 ^ (binExp q - 52) := zpow_pos (by norm_num) _
  have h := rne_err (q / 2 ^ (binExp q - 52))
  have expand : (rne (q / 2 ^ (binExp q - 52)) : ℚ) * 2 ^ (binExp q - 52) - q =
      ((rne (q / 2 ^ (binExp q - 52)) : ℚ) - q / 2 ^ (binExp q - 52)) *
        2 ^ (binExp q - 52) := by
    field_simp
  have key : |(rne (q / 2 ^ (binExp q - 52)) : ℚ) * 2 ^ (binExp q - 52) - q| =
      |(rne (q / 2 ^ (binExp q - 52)) : ℚ) - q / 2 ^ (binExp q - 52)| *
        2 ^ (binExp q - 52) := by
    rw [expand, abs_mul, abs_of_pos hu]
  rw [key]
  have hsplit : (2:ℚ) ^ (binExp q - 53) = (1/2) * 2 ^ (binExp q - 52) := by
    rw [show binExp q - 53 = (-1) + (binExp q - 52) by ring,
        zpow_add₀ (by norm_num : (2:ℚ) ≠ 0)]
    norm_num
  rw [hsplit]
  exact mul_le_mul_of_nonneg_right h (le_of_lt hu)

/-- The binade exponent of a value below `2 ^ (e + 1)` is at most `e`. -/
theorem binExp_le_of_lt (q : ℚ) (e : ℤ) (hq : q ≠ 0) (hlo : (2:ℚ)^(-(128:ℤ)) ≤ |q|)
    (hhi : |q| ≤ (2:ℚ)^(128:ℤ)) (h : |q| < 2 ^ (e + 1)) :
    binExp q ≤ e := by
  by_contra hc
  push_neg at hc
  have h1 : (2:ℚ) ^ (e + 1) ≤ 2 ^ (binExp q) :=
    zpow_le_zpow_right₀ (by norm_num) (by omega)
  have h2 : (2:ℚ) ^ (binExp q) ≤ |q| := (binExp_bounds q hq hlo hhi).1
  linarith

/-- Integers of magnitude below `2 ^ 53` are exactly representable: double
rounding leaves them unchanged. -/
theorem fl_intCast (n : ℤ) (hn : |n| < 2 ^ 53) : fl (n : ℚ) = n := by
  by_cases hn0 : n = 0
  · subst hn0
    simp [fl]
  · have hne : (n:ℚ) ≠ 0 := Int.cast_ne_zero.mpr hn0
    have habs1 : (1:ℚ) ≤ |(n:ℚ)| := by
      rw [← Int.cast_abs]
      exact_mod_cast (by have := abs_pos.mpr hn0; omega : (1:ℤ) ≤ |n|)
    have hlog : binExp (n:ℚ) ≤ 52 := by
      refine binExp_le_of_lt _ 52 hne ?_ ?_ ?_
      · calc (2:ℚ)^(-(128:ℤ)) ≤ 1 := by norm_num
          _ ≤ |(n:ℚ)| := habs1
      · rw [← Int.cast_abs]
        calc ((|n| : ℤ) : ℚ) ≤ (((2:ℤ)^53 : ℤ) : ℚ) := by exact_mod_cast le_of_lt hn
          _ ≤ (2:ℚ)^(128:ℤ) := by norm_num
      · rw [← Int.cast_abs]
        calc ((|n| : ℤ) : ℚ) < (((2:ℤ)^53 : ℤ) : ℚ) := by exact_mod_cast hn
          _ = (2:ℚ) ^ ((52:ℤ) + 1) := by norm_num
    rw [fl, if_neg hne]
    have hcast : ((n:ℚ) / 2 ^ (binExp (n:ℚ) - 52)) =
        ((n * 2 ^ (52 - binExp (n:ℚ)).toNat : ℤ) : ℚ) := by
      push_cast
      rw [div_eq_mul_inv, ← zpow_neg, ← zpow_natCast]
      congr 1
      rw [Int.toNat_of_nonneg (by omega)]
      ring_nf
    rw [hcast, rne_intCast]
    push_cast
    rw [← zpow_natCast (2:ℚ) (52 - binExp (n:ℚ)).toNat,
        Int.toNat_of_nonneg (by omega), mul_assoc,
        ← zpow_add₀ (by norm_num : (2:ℚ) ≠ 0)]
    norm_num

/-- `DateTime.timestamp()` with the rounding of each double operation made
explicit: `float(timegm(...))` converts the integer to a double and
`+ self.microsecond / 1.0e6` performs one rounded division and one rounded
addition. -/
def DT.timestampFloat (t : DT) : ℚ :=
  fl (fl ((timegm t : ℚ)) + fl ((t.microsecond : ℚ) / 1000000))

/-- `datetime.utcfromtimestamp` on a double `x`: `t, frac = divmod(x, 1.0)`
(floor and remainder, both exact in IEEE arithmetic), then
`us = int(round(frac * 1e6))` — one rounded multiplication, then Python's
round (half away from zero, which on the nonnegative `frac` equals flooring
after adding one half) — then the rollover guard for `us == 1000000` and the
calendar decomposition of the whole seconds. -/
def DT.ofEpochFloat (x : ℚ) : DT :=
  let t : Int := ⌊x⌋
  let usr : Int := ⌊fl ((x - (t : ℚ)) * 1000000) + 1/2⌋
  if usr = 1000000 then DT.ofEpochMicro ((t + 1) * 1000000)
  else DT.ofEpochMicro (t * 1000000 + usr)

/-- Evaluating `ofEpochFloat` once its floor and its rounded microsecond
count are known. -/
theorem ofEpochFloat_reduce (x : ℚ) (T usr : ℤ) (hfloor : ⌊x⌋ = T)
    (husr : ⌊fl ((x - (T : ℚ)) * 1000000) + 1/2⌋ = usr) (hne : usr ≠ 1000000) :
    DT.ofEpochFloat x = DT.ofEpochMicro (T * 1000000 + usr) := by
  simp only [DT.ofEpochFloat, hfloor, husr]
  rw [if_neg hne]

/-- The binade exponent is determined by the two-sided power bound. -/
theorem binExp_eval (q : ℚ) (e : ℤ) (hq : q ≠ 0) (hlo : (2:ℚ)^(-(128:ℤ)) ≤ |q|)
    (hhi : |q| ≤ (2:ℚ)^(128:ℤ)) (h1 : (2:ℚ)^e ≤ |q|) (h2 : |q| < (2:ℚ)^(e+1)) :
    binExp q = e := by
  have hb := binExp_bounds q hq hlo hhi
  have hle : binExp q ≤ e := binExp_le_of_lt q e hq hlo hhi h2
  by_contra hne
  have hlt : binExp q + 1 ≤ e := by omega
  have hmono : (2:ℚ) ^ (binExp q + 1) ≤ 2 ^ e := zpow_le_zpow_right₀ (by norm_num) hlt
  linarith [hb.2, h1]

/-- `rne` at a value within the lower half-interval of an integer. -/
theorem rne_eval (x : ℚ) (n : ℤ) (h1 : (n:ℚ) ≤ x) (h2 : x < n + 1/2) :
    rne x = n := by
  have hfl : ⌊x⌋ = n := by
    rw [Int.floor_eq_iff]
    constructor
    · exact h1
    · push_cast
      linarith
  simp only [rne, hfl]
  rw [if_neg (by push_cast; linarith), if_pos (by push_cast; linarith)]

/-- Evaluating `fl` from its binade and its rounded significand. -/
theorem fl_eval (q : ℚ) (e : ℤ) (n : ℤ) (hq : q ≠ 0) (hbin : binExp q = e)
    (hrne : rne (q / 2 ^ (e - 52)) = n) :
    fl q = (n : ℚ) * 2 ^ (e - 52) := by
  rw [fl, if_neg hq, hbin, hrne]

/-- Evaluation of `timestampFloat` at the tuple (9999, 1, 1, 0, 0, 0, 1):
each double rounding is computed explicitly, and the one-microsecond
fraction is absorbed by the 2^-15 ulp at this magnitude. -/
theorem timestampFloat_9999 :
    DT.timestampFloat ⟨9999, 1, 1, 0, 0, 0, 1⟩ = 253370764800 := by
  have htg : timegm ⟨9999, 1, 1, 0, 0, 0, 1⟩ = 253370764800 := by decide
  have htgQ : ((timegm ⟨9999, 1, 1, 0, 0, 0, 1⟩ : ℤ) : ℚ) = 253370764800 := by
    rw [htg]
    norm_num
  have hflT : fl ((timegm ⟨9999, 1, 1, 0, 0, 0, 1⟩ : ℤ) : ℚ) = 253370764800 := by
    rw [htgQ, show (253370764800 : ℚ) = ((253370764800 : ℤ) : ℚ) by norm_num,
        fl_intCast 253370764800 (by norm_num)]
  have hc2 : fl ((1 : ℚ) / 1000000) =
      4722366482869645 / 4722366482869645213696 := by
    have hbin : binExp ((1 : ℚ) / 1000000) = -20 := by
      refine binExp_eval _ _ (by norm_num) ?_ ?_ ?_ ?_ <;>
        rw [show |(1 : ℚ) / 1000000| = 1 / 1000000 by rw [abs_of_pos]; norm_num] <;>
        norm_num
    have hrne : rne ((1 : ℚ) / 1000000 / 2 ^ ((-20 : ℤ) - 52)) =
        4722366482869645 := by
      refine rne_eval _ _ ?_ ?_ <;>
        rw [show ((1 : ℚ) / 1000000 / 2 ^ ((-20 : ℤ) - 52)) =
            4722366482869645213696 / 1000000 by
          rw [show (-20 : ℤ) - 52 = -(72 : ℤ) by ring, zpow_neg]
          norm_num] <;>
        norm_num
    rw [fl_eval _ _ _ (by norm_num) hbin hrne,
        show (-20 : ℤ) - 52 = -(72 : ℤ) by ring, zpow_neg]
    norm_num
  have hsum : fl ((253370764800 : ℚ) +
      4722366482869645 / 4722366482869645213696) = 253370764800 := by
    have habs : |(253370764800 : ℚ) + 4722366482869645 / 4722366482869645213696| =
        (253370764800 : ℚ) + 4722366482869645 / 4722366482869645213696 := by
      rw [abs_of_pos]
      norm_num
    have hbin : binExp ((253370764800 : ℚ) +
        4722366482869645 / 4722366482869645213696) = 37 := by
      refine binExp_eval _ _ (by norm_num) ?_ ?_ ?_ ?_ <;> rw [habs] <;> norm_num
    have hrne : rne (((253370764800 : ℚ) +
        4722366482869645 / 4722366482869645213696) / 2 ^ ((37 : ℤ) - 52)) =
        253370764800 * 32768 := by
      refine rne_eval _ _ ?_ ?_ <;>
        rw [show (((253370764800 : ℚ) + 4722366482869645 / 4722366482869645213696) /
            2 ^ ((37 : ℤ) - 52)) =
            (253370764800 : ℚ) * 32768 +
              4722366482869645 * 32768 / 4722366482869645213696 by
          rw [show (37 : ℤ) - 52 = -(15 : ℤ) by ring, zpow_neg]
          norm_num] <;>
        push_cast <;>
        norm_num
    rw [fl_eval _ _ _ (by norm_num) hbin hrne,
        show (37 : ℤ) - 52 = -(15 : ℤ) by ring, zpow_neg]
    push_cast
    norm_num
  simp only [DT.timestampFloat]
  rw [hflT]
  rw [show ((⟨9999, 1, 1, 0, 0, 0, 1⟩ : DT).microsecond : ℚ) = (1 : ℚ) by norm_num]
  rw [hc2, hsum]

/-- Reconstructing from the rounded timestamp yields microsecond 0. -/
theorem ofEpochFloat_9999 :
    DT.ofEpochFloat (253370764800 : ℚ) = ⟨9999, 1, 1, 0, 0, 0, 0⟩ := by
  have hcast : ((253370764800 : ℤ) : ℚ) = (253370764800 : ℚ) := by norm_num
  have hfloor : ⌊(253370764800 : ℚ)⌋ = 253370764800 := by
    rw [← hcast, Int.floor_intCast]
  have hzero : ((253370764800 : ℚ) - ((253370764800 : ℤ) : ℚ)) * 1000000 = 0 := by
    rw [hcast]
    ring
  have husr : ⌊fl (((253370764800 : ℚ) - ((253370764800 : ℤ) : ℚ)) * 1000000) + 1/2⌋ =
      (0 : ℤ) := by
    rw [hzero, fl_zero]
    rw [Int.floor_eq_iff] <;> norm_num
  rw [ofEpochFloat_reduce (253370764800 : ℚ) 253370764800 0 hfloor husr (by norm_num)]
  decide

/-- C5 (counterexample): the claimed round trip fails on the program at the
valid calendar tuple (9999, 1, 1, 0, 0, 0, 1): its timestamp, 253370764800
seconds plus one microsecond, rounds to the double 253370764800.0 (the ulp
there is 2^-15 s, about 3.05e-5), and reconstruction yields microsecond 0,
not 1. -/
theorem to_epoch_roundtrip_fails_at_9999 :
    (⟨9999, 1, 1, 0, 0, 0, 1⟩ : DT).Valid ∧
    DT.timestampFloat ⟨9999, 1, 1, 0, 0, 0, 1⟩ = 253370764800 ∧
    DT.ofEpochFloat (DT.timestampFloat ⟨9999, 1, 1, 0, 0, 0, 1⟩) =
      ⟨9999, 1, 1, 0, 0, 0, 0⟩ ∧
    ¬ (DT.ofEpochFloat (DT.timestampFloat ⟨9999, 1, 1, 0, 0, 0, 1⟩) =
        ⟨9999, 1, 1, 0, 0, 0, 1⟩) := by
  refine ⟨by decide, timestampFloat_9999, ?_, ?_⟩
  · rw [timestampFloat_9999, ofEpochFloat_9999]
  · rw [timestampFloat_9999, ofEpochFloat_9999]
    decide

/-- C5 (amended): for every valid calendar tuple with year between 1700 and
2200 — where the double ulp of the timestamp stays below one microsecond —
constructing a value, converting with `timestamp()` (with its double
roundings), and constructing again restores the identical calendar fields. -/
theorem to_epoch_calendar_roundtrip_float (t : DT) (hv : t.Valid)
    (hylo : 1700 ≤ t.year) (hyhi : t.year ≤ 2200) :
    DT.ofEpochFloat (DT.timestampFloat t) = t := by
  obtain ⟨y, m, d, h, mi, s, us⟩ := t
  have hvKeep : DT.Valid ⟨y, m, d, h, mi, s, us⟩ := hv
  replace hv : 1 ≤ y ∧ y ≤ 9999 ∧ 1 ≤ m ∧ m ≤ 12 ∧ 1 ≤ d ∧
      d ≤ daysInMonthTbl (isLeap y) m ∧ h < 24 ∧ mi < 60 ∧ s < 60 ∧ us < 1000000 := hv
  obtain ⟨hy1, hy2, hm1, hm2, hd1, hd2, hh, hmi, hs, hus⟩ := hv
  replace hylo : 1700 ≤ y := hylo
  replace hyhi : y ≤ 2200 := hyhi
  have hdbm := daysBeforeMonth_le (isLeap y) m (by omega) hm1
  have hdbm' : daysBeforeMonth (isLeap y) m ≤ 335 := by
    cases hlf : isLeap y <;> simp [hlf] at hdbm <;> omega
  have hdim : d ≤ 31 := le_trans hd2 (daysInMonthTbl_le (isLeap y) m (by omega))
  have hordlo : 620000 ≤ ymd2ord y m d := by
    simp only [ymd2ord, daysBeforeYear]
    omega
  have hordhi : ymd2ord y m d ≤ 804000 := by
    simp only [ymd2ord, daysBeforeYear]
    omega
  have hTdef : timegm ⟨y, m, d, h, mi, s, us⟩ =
      ((ymd2ord y m d : ℤ) - 719163) * 86400 + h * 3600 + mi * 60 + s := by
    simp [timegm, epochOrdinal]
  have hTlo : -8567683200 ≤ timegm ⟨y, m, d, h, mi, s, us⟩ := by
    rw [hTdef]
    omega
  have hThi : timegm ⟨y, m, d, h, mi, s, us⟩ ≤ 7330003199 := by
    rw [hTdef]
    omega
  have hflT : fl ((timegm ⟨y, m, d, h, mi, s, us⟩ : ℤ) : ℚ) =
      ((timegm ⟨y, m, d, h, mi, s, us⟩ : ℤ) : ℚ) :=
    fl_intCast _ (by
      have h53 : (2:ℤ) ^ 53 = 9007199254740992 := by norm_num
      rw [abs_lt, h53]
      constructor <;> omega)
  rw [show DT.timestampFloat ⟨y, m, d, h, mi, s, us⟩ =
      fl (fl ((timegm ⟨y, m, d, h, mi, s, us⟩ : ℤ) : ℚ) + fl ((us : ℚ) / 1000000)) from rfl,
    hflT]
  by_cases hus0 : us = 0
  · subst hus0
    rw [show (((0:ℕ) : ℚ) / 1000000) = 0 by norm_num, fl_zero, add_zero, hflT]
    have hfloor : ⌊((timegm ⟨y, m, d, h, mi, s, 0⟩ : ℤ) : ℚ)⌋ =
        timegm ⟨y, m, d, h, mi, s, 0⟩ := Int.floor_intCast _
    have husr : ⌊fl ((((timegm ⟨y, m, d, h, mi, s, 0⟩ : ℤ) : ℚ) -
        ((timegm ⟨y, m, d, h, mi, s, 0⟩ : ℤ) : ℚ)) * 1000000) + 1/2⌋ = (0 : ℤ) := by
      rw [show ((((timegm ⟨y, m, d, h, mi, s, 0⟩ : ℤ) : ℚ) -
          ((timegm ⟨y, m, d, h, mi, s, 0⟩ : ℤ) : ℚ)) * 1000000) = 0 by ring, fl_zero]
      rw [Int.floor_eq_iff] <;> norm_num
    rw [ofEpochFloat_reduce _ _ 0 hfloor husr (by norm_num)]
    have harg : timegm ⟨y, m, d, h, mi, s, 0⟩ * 1000000 + 0 =
        DT.timestampMicro ⟨y, m, d, h, mi, s, 0⟩ := by
      simp [DT.timestampMicro]
    rw [harg]
    exact ofEpochMicro_timestampMicro _ hvKeep
  · have hus1 : 1 ≤ us := by omega
    set T : ℤ := timegm ⟨y, m, d, h, mi, s, us⟩ with hTset
    have husQ1 : (1:ℚ) ≤ (us:ℚ) := by exact_mod_cast hus1
    have husQ2 : (us:ℚ) ≤ 999999 := by exact_mod_cast (by omega : us ≤ 999999)
    set A : ℚ := (us : ℚ) / 1000000 with hAset
    have hA0 : (0:ℚ) < A := by rw [hAset]; positivity
    have hAlow : 1/1000000 ≤ A := by rw [hAset]; linarith
    have hAhigh : A ≤ 999999/1000000 := by rw [hAset]; linarith
    have hAne : A ≠ 0 := ne_of_gt hA0
    have hbinA : binExp A ≤ -1 := by
      refine binExp_le_of_lt A (-1) hAne ?_ ?_ ?_ <;> rw [abs_of_pos hA0]
      · exact le_trans (by norm_num) hAlow
      · exact le_trans hAhigh (by norm_num)
      · exact lt_of_le_of_lt hAhigh (by norm_num)
    have hc2err : |fl A - A| ≤ 1/18014398509481984 := by
      calc |fl A - A| ≤ (2:ℚ) ^ (binExp A - 53) := fl_err A hAne
        _ ≤ (2:ℚ) ^ (-(54:ℤ)) := zpow_le_zpow_right₀ (by norm_num) (by omega)
        _ = 1/18014398509481984 := by norm_num
    obtain ⟨hc2b1, hc2b2⟩ := abs_le.mp hc2err
    have hTQlo : (-8567683200 : ℚ) ≤ (T : ℚ) := by exact_mod_cast hTlo
    have hTQhi : (T : ℚ) ≤ 7330003199 := by exact_mod_cast hThi
    have he54 : (0:ℚ) < 1/1000000 - 1/18014398509481984 := by norm_num
    set S : ℚ := (T : ℚ) + fl A with hSset
    have hSlb : 1/1000000 - 1/18014398509481984 ≤ |S| := by
      rcases le_or_lt 0 T with hT0 | hT0
      · have hT0Q : (0:ℚ) ≤ (T : ℚ) := by exact_mod_cast hT0
        rw [hSset, abs_of_pos (by linarith)]
        linarith
      · have hTm1 : (T : ℚ) ≤ -1 := by exact_mod_cast (by omega : T ≤ -1)
        rw [hSset, abs_of_neg (by linarith)]
        linarith
    have hSub : |S| ≤ 8567683201 := by
      rw [hSset, abs_le]
      constructor <;> linarith
    have hSne : S ≠ 0 := by
      intro hcon
      rw [hcon, abs_zero] at hSlb
      linarith
    have hbinS : binExp S ≤ 32 := by
      refine binExp_le_of_lt S 32 hSne ?_ ?_ ?_
      · exact le_trans (by norm_num) hSlb
      · exact le_trans hSub (by norm_num)
      · exact lt_of_le_of_lt hSub (by norm_num)
    have hxerr : |fl S - S| ≤ 1/2097152 := by
      calc |fl S - S| ≤ (2:ℚ) ^ (binExp S - 53) := fl_err S hSne
        _ ≤ (2:ℚ) ^ (-(21:ℤ)) := zpow_le_zpow_right₀ (by norm_num) (by omega)
        _ = 1/2097152 := by norm_num
    set x : ℚ := fl S with hxset
    obtain ⟨hxb1, hxb2⟩ := abs_le.mp hxerr
    have hxTA : |x - ((T : ℚ) + A)| ≤ 1/2097152 + 1/18014398509481984 := by
      have hsplit : x - ((T : ℚ) + A) = (x - S) + (fl A - A) := by
        rw [hSset]; ring
      rw [hsplit]
      exact le_trans (abs_add _ _) (add_le_add hxerr hc2err)
    obtain ⟨hxTA1, hxTA2⟩ := abs_le.mp hxTA
    have hgap1 : (0:ℚ) < 1/1000000 - 1/2097152 - 1/18014398509481984 := by norm_num
    have hgap2 : (999999:ℚ)/1000000 + 1/2097152 + 1/18014398509481984 < 1 := by norm_num
    have hfloorx : ⌊x⌋ = T := by
      rw [Int.floor_eq_iff]
      constructor
      · linarith
      · push_cast
        linarith
    set B : ℚ := (x - (T : ℚ)) * 1000000 with hBset
    have hE6 : ((1:ℚ)/2097152 + 1/18014398509481984) * 1000000 < 1/2 := by norm_num
    have hBval : B - (us:ℚ) = (x - ((T : ℚ) + A)) * 1000000 := by
      rw [hBset, hAset]
      ring
    have hBerr : |B - (us:ℚ)| ≤ ((1:ℚ)/2097152 + 1/18014398509481984) * 1000000 := by
      rw [hBval, abs_mul, abs_of_pos (by norm_num : (0:ℚ) < 1000000)]
      exact mul_le_mul_of_nonneg_right hxTA (by norm_num)
    obtain ⟨hBb1, hBb2⟩ := abs_le.mp hBerr
    have hB0 : (0:ℚ) < B := by linarith
    have hBne : B ≠ 0 := ne_of_gt hB0
    have hBlb : (1:ℚ)/2 ≤ B := by linarith
    have hBub : B ≤ 999999 + 1/2 := by linarith
    have hbinB : binExp B ≤ 19 := by
      refine binExp_le_of_lt B 19 hBne ?_ ?_ ?_ <;> rw [abs_of_pos hB0]
      · exact le_trans (by norm_num) hBlb
      · exact le_trans hBub (by norm_num)
      · exact lt_of_le_of_lt hBub (by norm_num)
    have husferr : |fl B - B| ≤ 1/17179869184 := by
      calc |fl B - B| ≤ (2:ℚ) ^ (binExp B - 53) := fl_err B hBne
        _ ≤ (2:ℚ) ^ (-(34:ℤ)) := zpow_le_zpow_right₀ (by norm_num) (by omega)
        _ = 1/17179869184 := by norm_num
    obtain ⟨husfb1, husfb2⟩ := abs_le.mp husferr
    have hfin : (1:ℚ)/17179869184 + ((1:ℚ)/2097152 + 1/18014398509481984) * 1000000 < 1/2 := by
      norm_num
    have husr : ⌊fl B + 1/2⌋ = (us : ℤ) := by
      rw [Int.floor_eq_iff]
      constructor
      · push_cast
        linarith
      · push_cast
        linarith
    rw [ofEpochFloat_reduce x T (us : ℤ) hfloorx husr (by omega)]
    have harg : T * 1000000 + (us : ℤ) = DT.timestampMicro ⟨y, m, d, h, mi, s, us⟩ := by
      rw [hTset]
      simp [DT.timestampMicro]
    rw [harg]
    exact ofEpochMicro_timestampMicro _ hvKeep

/-- Witness for the amended round trip at the doctest value
2009-04-24 08:27:12.005000 UTC. -/
theorem to_epoch_calendar_roundtrip_float_witness :
    DT.ofEpochFloat (DT.timestampFloat ⟨2009, 4, 24, 8, 27, 12, 5000⟩) =
      ⟨2009, 4, 24, 8, 27, 12, 5000⟩ :=
  to_epoch_calendar_roundtrip_float ⟨2009, 4, 24, 8, 27, 12, 5000⟩ (by decide) (by decide)
    (by decide)
